import Mathlib

/-!
Verification of the pygander transformation utilities.

This file gives a shallow embedding of `src/pygander/transforms.py` and
`src/pygander/grouper.py` and proves the claims about them.

Modelling conventions:
* Cell values are modelled by `Value`: Python ints, strings, `None`,
  the NaN/NA family, and the `inspect.Parameter.empty` sentinel.
* A pandas DataFrame is an ordered association list of
  (column name, column values).
* Python exceptions become `Except` errors; the distinct exception classes
  raised by the library become constructors of `PgError`.
* Each decorator is a function from its configuration and the decorated
  function to a pair (inner decorator's return value, resulting table);
  on an error the original table is returned unchanged, matching the fact
  that the Python code raises before assigning the column.
-/

deriving instance DecidableEq for Except

/-- A Python runtime value as it appears in pygander tables and parameters:
ints, strings, `None`, the NaN/`pd.NA` family, and the
`inspect.Parameter.empty` sentinel. -/
inductive Value where
  | vInt (n : Int)
  | vStr (s : String)
  | pyNone
  | nan
  | empty
deriving DecidableEq, Repr

/-- `pd.isna`: true exactly on `None` and the NaN/NA family.
(`inspect.Parameter.empty` is an ordinary object, not NA.) -/
def pdIsna : Value → Bool
  | .pyNone => true
  | .nan => true
  | _ => false

/-- Declared parameter type annotations used as casting constructors. -/
inductive TypeAnn where
  | tInt
  | tStr
deriving DecidableEq, Repr

/-- Python `str(v)` (always succeeds). -/
def pyStr : Value → String
  | .vInt n => toString n
  | .vStr s => s
  | .pyNone => "None"
  | .nan => "nan"
  | .empty => "<empty>"

/-- Digits of a Python int literal to a natural number. -/
def digitsToNat (cs : List Char) : Nat :=
  cs.foldl (fun acc c => acc * 10 + (c.toNat - '0'.toNat)) 0

/-- Strip leading and trailing whitespace from a character list
(Python `str.strip`). -/
def pyStripChars (cs : List Char) : List Char :=
  ((cs.dropWhile Char.isWhitespace).reverse.dropWhile Char.isWhitespace).reverse

/-- Python `int(s)` on a string: optional surrounding whitespace, optional
sign, then a nonempty run of digits; anything else raises. -/
def pyIntOfString (s : String) : Option Int :=
  let core : List Char → Option Int := fun cs =>
    if cs ≠ [] ∧ cs.all Char.isDigit then some (Int.ofNat (digitsToNat cs)) else none
  match pyStripChars s.data with
  | '+' :: rest => core rest
  | '-' :: rest => (core rest).map Int.neg
  | cs => core cs

/-- Calling a declared annotation on a value, `param_obj.annotation(value)`:
either the converted value or the message of the raised exception. -/
def castValue : TypeAnn → Value → Except String Value
  | .tInt, .vInt n => .ok (.vInt n)
  | .tInt, .vStr s =>
    match pyIntOfString s with
    | some n => .ok (.vInt n)
    | none => .error ("invalid literal for int() with base 10: " ++ s)
  | .tInt, .pyNone => .error "int() argument must not be None"
  | .tInt, .nan => .error "cannot convert NaN to integer"
  | .tInt, .empty => .error "int() argument must not be the empty sentinel"
  | .tStr, v => .ok (.vStr (pyStr v))

/-- One declared parameter (`inspect.Parameter`):
`typeAnn = none` models an absent annotation (`inspect._empty`),
`dflt = none` models an absent default (`inspect.Parameter.empty`). -/
structure Param where
  typeAnn : Option TypeAnn
  dflt : Option Value
deriving DecidableEq, Repr

/-- `param_obj.default`: the declared default, or the
`inspect.Parameter.empty` sentinel when none was declared. -/
def Param.pyDefault (p : Param) : Value :=
  p.dflt.getD Value.empty

/-- The `strict_typecast` configuration: `True`, `False`, or `"default"`. -/
inductive StrictMode where
  | strictTrue
  | strictFalse
  | defaultMode
deriving DecidableEq, Repr

/-- The exception classes raised by the library. -/
inductive PgError where
  /-- `KeyError` from `rowlogic`/`ctransf`: parameters that are not columns,
  together with the available columns. -/
  | keyErrorMissingCols (missing : List String) (available : List String)
  /-- `ValueError` from `rowlogic`/`ctransf`: function name collides with an
  existing column while `overwrite_col=False`. -/
  | valueErrorConflict (funcName : String)
  /-- `ValueError` from `_apply_param_logic` with `strict_typecast="default"`:
  names the parameter, the function, the raw value and the cast exception. -/
  | configError (paramName : String) (funcName : String) (raw : Value) (cause : String)
  /-- `TypeError` from `_apply_param_logic` with `strict_typecast=True`:
  names the parameter, the annotation, the raw value and the cast exception. -/
  | typeErrorCast (paramName : String) (ann : TypeAnn) (raw : Value) (cause : String)
  /-- An exception raised by the user's transformation function. -/
  | funcError (msg : String)
  /-- `KeyError` from the grouper's `_aggvals`. -/
  | keyErrorGrouper (missing : List String)
  /-- `KeyError` from column selection `df[cols]` on the concatenated table. -/
  | keyErrorSelect (missing : List String)
deriving DecidableEq, Repr

/-- `_apply_param_logic(param_name, param_obj, value, func_name,
strict_typecast)` from `transforms.py`: NA values resolve to
`param_obj.default` (the empty sentinel when there is no default); absent
annotations pass the value through; otherwise the annotation is called on
the value, and on failure the behaviour branches on `strict_typecast`. -/
def applyParamLogic (param_name : String) (param_obj : Param) (value : Value)
    (func_name : String) (strict_typecast : StrictMode) : Except PgError Value :=
  if pdIsna value then .ok param_obj.pyDefault
  else
    match param_obj.typeAnn with
    | none => .ok value
    | some ann =>
      match castValue ann value with
      | .ok v => .ok v
      | .error e =>
        match strict_typecast with
        | .defaultMode =>
          if param_obj.dflt = none then
            .error (.configError param_name func_name value e)
          else
            .ok param_obj.pyDefault
        | .strictTrue => .error (.typeErrorCast param_name ann value e)
        | .strictFalse => .ok value

/-- C1: for a parameter with a declared annotation and a non-NA value whose
cast fails, `strict_typecast=True` raises the `TypeError`,
`strict_typecast=False` returns the raw value unchanged, and
`strict_typecast="default"` returns the declared default when one exists and
otherwise raises the `ValueError` configuration error naming the parameter,
the function, the raw value, and the underlying cast error. -/
theorem c1_strict_mode_branches (n : String) (p : Param) (v : Value) (f : String)
    (ann : TypeAnn) (e : String)
    (hna : pdIsna v = false) (hann : p.typeAnn = some ann)
    (hcast : castValue ann v = .error e) :
    applyParamLogic n p v f .strictTrue = .error (.typeErrorCast n ann v e)
    ∧ applyParamLogic n p v f .strictFalse = .ok v
    ∧ (∀ d, p.dflt = some d → applyParamLogic n p v f .defaultMode = .ok d)
    ∧ (p.dflt = none → applyParamLogic n p v f .defaultMode = .error (.configError n f v e)) := by
  refine ⟨?_, ?_, ?_, ?_⟩
  · simp [applyParamLogic, hna, hann, hcast]
  · simp [applyParamLogic, hna, hann, hcast]
  · intro d hd
    simp [applyParamLogic, hna, hann, hcast, hd, Param.pyDefault]
  · intro hd
    simp [applyParamLogic, hna, hann, hcast, hd]

/-- Witness for C1 at the parameter `b : int = 9` of the spec's example and
the raw value `"x"`, whose int cast fails. -/
theorem c1_witness :
    pdIsna (Value.vStr "x") = false
    ∧ castValue TypeAnn.tInt (Value.vStr "x")
        = Except.error "invalid literal for int() with base 10: x"
    ∧ applyParamLogic "b" ⟨some TypeAnn.tInt, some (Value.vInt 9)⟩ (Value.vStr "x") "r"
        StrictMode.strictTrue
        = Except.error (PgError.typeErrorCast "b" TypeAnn.tInt (Value.vStr "x")
            "invalid literal for int() with base 10: x") :=
  ⟨by decide, by decide,
    (c1_strict_mode_branches "b" ⟨some TypeAnn.tInt, some (Value.vInt 9)⟩ (Value.vStr "x") "r"
      TypeAnn.tInt "invalid literal for int() with base 10: x"
      (by decide) rfl (by decide)).1⟩

/-- C2 counterexample: for a parameter with no default, an NA value does not
come back unchanged — the coercion returns the `inspect.Parameter.empty`
sentinel (`param_obj.default`), which differs from the absent value. -/
theorem c2_counterexample :
    applyParamLogic "p" ⟨none, none⟩ Value.nan "f" StrictMode.defaultMode
      = Except.ok Value.empty
    ∧ Value.empty ≠ Value.nan := by
  exact ⟨rfl, by decide⟩

/-- C2 (amended): for an NA raw value the coercion returns
`param_obj.default` regardless of `strict_typecast`: the declared default
when one exists, and otherwise the `inspect.Parameter.empty` sentinel (not
the absent value itself). -/
theorem c2_absent_resolves_to_default (n : String) (p : Param) (v : Value) (f : String)
    (strict : StrictMode) (hna : pdIsna v = true) :
    (∀ d, p.dflt = some d → applyParamLogic n p v f strict = .ok d)
    ∧ (p.dflt = none → applyParamLogic n p v f strict = .ok Value.empty) := by
  constructor
  · intro d hd
    simp [applyParamLogic, hna, Param.pyDefault, hd]
  · intro hd
    simp [applyParamLogic, hna, Param.pyDefault, hd]

/-- Witness for C2 (amended): an NA value with default `9` resolves to `9`,
and an NA value with no default resolves to the empty sentinel. -/
theorem c2_witness :
    pdIsna Value.nan = true
    ∧ applyParamLogic "b" ⟨some TypeAnn.tInt, some (Value.vInt 9)⟩ Value.nan "r"
        StrictMode.strictTrue = Except.ok (Value.vInt 9) :=
  ⟨by decide,
    (c2_absent_resolves_to_default "b" ⟨some TypeAnn.tInt, some (Value.vInt 9)⟩ Value.nan "r"
      StrictMode.strictTrue (by decide)).1 (Value.vInt 9) rfl⟩

/-- A pandas DataFrame, modelled as an ordered association list of
(column name, column values); all columns of a well-formed table have the
same length. -/
abbrev DF : Type := List (String × List Value)

/-- `df.columns` as a list of names, in order. -/
def colNames (df : DF) : List String :=
  df.map Prod.fst

/-- `len(df)`: number of rows, read off the first column. -/
def nrows (df : DF) : Nat :=
  match df with
  | [] => 0
  | p :: _ => p.2.length

/-- Well-formedness of a table, as a decidable check: every column has
exactly `nrows df` values. -/
def dfwf (df : DF) : Bool :=
  df.all (fun p => p.2.length = nrows df)

/-- Row `i` of the table as produced by `df.iterrows()`: the mapping from
column name to the value at position `i`, in column order. -/
def getRow (df : DF) (i : Nat) : List (String × Value) :=
  df.map (fun p => (p.1, p.2.getD i Value.nan))

/-- `df[name] = vals`: replace the column in place when the name exists,
otherwise append it as the last column. -/
def setCol (df : DF) (name : String) (vals : List Value) : DF :=
  if (colNames df).contains name then
    df.map (fun p => if p.1 = name then (p.1, vals) else p)
  else
    df ++ [(name, vals)]

/-- A Python function as `rowlogic` sees it: its `__name__`, its ordered
`inspect.signature(...).parameters`, and its body, which receives the bound
keyword arguments and either returns a value or raises. -/
structure Func where
  name : String
  params : List (String × Param)
  body : List (String × Value) → Except String Value

/-- The dict comprehension of `_apply_func_to_row`: walk the row's items in
column order, keep those naming a parameter, and run `_apply_param_logic`
on each; a coercion error aborts the whole comprehension. -/
def bindParams (func : Func) (strict : StrictMode) :
    List (String × Value) → Except PgError (List (String × Value))
  | [] => .ok []
  | (n, v) :: rest =>
    match List.lookup n func.params with
    | none => bindParams func strict rest
    | some pobj =>
      match applyParamLogic n pobj v func.name strict with
      | .error e => .error e
      | .ok r =>
        match bindParams func strict rest with
        | .error e => .error e
        | .ok rs => .ok ((n, r) :: rs)

/-- `_apply_func_to_row(func, row, strict_typecast, default_if_exception)`:
bind the parameters (coercion errors are outside the `try` and propagate),
invoke the function, and on an exception either re-raise (when the
configured fallback is Python `None`, the "not configured" sentinel) or
return the fallback value. -/
def applyFuncToRow (func : Func) (row : List (String × Value))
    (strict : StrictMode) (default_if_exception : Value) : Except PgError Value :=
  match bindParams func strict row with
  | .error e => .error e
  | .ok args =>
    match func.body args with
    | .ok v => .ok v
    | .error e =>
      if default_if_exception = Value.pyNone then .error (.funcError e)
      else .ok default_if_exception

/-- The list comprehension over `df.iterrows()`: evaluate each row in order,
aborting on the first uncontained exception. -/
def mapRows (f : Nat → Except PgError Value) : List Nat → Except PgError (List Value)
  | [] => .ok []
  | i :: rest =>
    match f i with
    | .error e => .error e
    | .ok v =>
      match mapRows f rest with
      | .error e => .error e
      | .ok vs => .ok (v :: vs)

/-- The `rowlogic` decorator applied to a function: validate that every
parameter names a column (else `KeyError`), check the overwrite conflict
(else `ValueError`), evaluate every row, and assign the result column.
The returned pair is (the inner decorator's return value — the value the
decorated name is rebound to — and the resulting table); on an error the
original table is returned unchanged, since the Python code raises before
the column assignment. -/
def rowlogic (df : DF) (default_if_exception : Value) (overwrite_col : Bool)
    (strict_typecast : StrictMode) (func : Func) :
    Except PgError (Option Func) × DF :=
  let missing := (func.params.map Prod.fst).filter (fun p => !(colNames df).contains p)
  if missing ≠ [] then (.error (.keyErrorMissingCols missing (colNames df)), df)
  else if ¬ overwrite_col ∧ (colNames df).contains func.name then
    (.error (.valueErrorConflict func.name), df)
  else
    match mapRows (fun i => applyFuncToRow func (getRow df i) strict_typecast
        default_if_exception) (List.range (nrows df)) with
    | .error e => (.error e, df)
    | .ok vals => (.ok none, setCol df func.name vals)

/-- A Python function as `ctransf` sees it: name, parameter names, and a
body receiving whole columns and returning a whole column (or raising). -/
structure CFunc where
  name : String
  params : List String
  body : List (String × List Value) → Except String (List Value)

/-- The `ctransf` decorator applied to a function: the same validation as
`rowlogic`, then a single call on whole columns whose result is assigned as
the new column. Exceptions from the function propagate uncontained. -/
def ctransf (df : DF) (overwrite_col : Bool) (cfunc : CFunc) :
    Except PgError (Option CFunc) × DF :=
  let missing := cfunc.params.filter (fun p => !(colNames df).contains p)
  if missing ≠ [] then (.error (.keyErrorMissingCols missing (colNames df)), df)
  else if ¬ overwrite_col ∧ (colNames df).contains cfunc.name then
    (.error (.valueErrorConflict cfunc.name), df)
  else
    match cfunc.body (cfunc.params.map (fun c => (c, (List.lookup c df).getD []))) with
    | .error e => (.error (.funcError e), df)
    | .ok vals => (.ok none, setCol df cfunc.name vals)

/-- A successful `mapRows` pass produces one value per row. -/
theorem mapRows_ok_length (f : Nat → Except PgError Value) :
    ∀ (l : List Nat) (vs : List Value), mapRows f l = .ok vs → vs.length = l.length := by
  intro l
  induction l with
  | nil =>
    intro vs h
    simp only [mapRows] at h
    cases h
    rfl
  | cons i rest ih =>
    intro vs h
    simp only [mapRows] at h
    cases hf : f i with
    | error e => rw [hf] at h; cases h
    | ok v =>
      rw [hf] at h
      cases hr : mapRows f rest with
      | error e => rw [hr] at h; cases h
      | ok vs2 =>
        rw [hr] at h
        cases h
        simp [ih vs2 hr]

/-- When every row evaluates without an escaping exception, `mapRows`
returns exactly the rowwise results. -/
theorem mapRows_ok_of (f : Nat → Except PgError Value) (g : Nat → Value) :
    ∀ l : List Nat, (∀ i ∈ l, f i = .ok (g i)) → mapRows f l = .ok (l.map g) := by
  intro l
  induction l with
  | nil => intro _; rfl
  | cons i rest ih =>
    intro h
    simp only [mapRows]
    rw [h i (List.mem_cons_self i rest), ih (fun j hj => h j (List.mem_cons_of_mem i hj))]
    rfl

/-- Assigning a column never changes the number of rows, provided the new
column has one value per row. -/
theorem setCol_nrows (df : DF) (name : String) (vals : List Value)
    (hlen : vals.length = nrows df) : nrows (setCol df name vals) = nrows df := by
  unfold setCol
  split
  · rename_i hmem
    cases df with
    | nil => simp [colNames] at hmem
    | cons p rest =>
      simp only [List.map_cons]
      by_cases hp : p.1 = name
      · rw [if_pos hp]
        simp only [nrows] at hlen ⊢
        exact hlen
      · rw [if_neg hp]
        simp [nrows]
  · cases df with
    | nil => simpa [nrows] using hlen
    | cons p rest => simp [nrows]

/-- Replacing a column's values in place leaves every other lookup alone. -/
theorem lookup_map_replace (name : String) (vals : List Value) (c : String) (hc : c ≠ name) :
    ∀ l : List (String × List Value),
      List.lookup c (l.map (fun p => if p.1 = name then (p.1, vals) else p)) = List.lookup c l
  | [] => rfl
  | p :: t => by
    by_cases hp : p.1 = name
    · have hb : (c == p.1) = false := by
        apply beq_eq_false_iff_ne.mpr
        rw [hp]
        exact hc
      simp only [List.map_cons, if_pos hp]
      simp only [List.lookup, hb]
      exact lookup_map_replace name vals c hc t
    · simp only [List.map_cons, if_neg hp]
      simp only [List.lookup]
      cases hb : c == p.1
      · exact lookup_map_replace name vals c hc t
      · rfl

/-- Appending a fresh column leaves every other lookup alone. -/
theorem lookup_append_not_key (name : String) (vals : List Value) (c : String) (hc : c ≠ name) :
    ∀ l : List (String × List Value),
      List.lookup c (l ++ [(name, vals)]) = List.lookup c l
  | [] => by
    have hb : (c == name) = false := beq_eq_false_iff_ne.mpr hc
    simp [List.lookup, hb]
  | p :: t => by
    simp only [List.cons_append, List.lookup]
    cases hb : c == p.1
    · exact lookup_append_not_key name vals c hc t
    · rfl

/-- Assigning a column leaves the lookup of every other column unchanged. -/
theorem setCol_lookup_ne (df : DF) (name : String) (vals : List Value)
    (c : String) (hc : c ≠ name) :
    List.lookup c (setCol df name vals) = List.lookup c df := by
  unfold setCol
  split
  · exact lookup_map_replace name vals c hc df
  · exact lookup_append_not_key name vals c hc df

/-- Assigning a column keeps the column order, appending the name at the
end exactly when it is new. -/
theorem setCol_colNames (df : DF) (name : String) (vals : List Value) :
    colNames (setCol df name vals)
      = if (colNames df).contains name then colNames df else colNames df ++ [name] := by
  unfold setCol
  split
  · unfold colNames
    rw [List.map_map]
    apply List.map_congr_left
    intro p _
    by_cases h : p.1 = name <;> simp [h]
  · simp [colNames]

/-- Inversion for a successful `rowlogic` registration: validation passed,
every row evaluated, the decorated name was rebound to `None`, and the
table got exactly the computed column. -/
theorem rowlogic_ok_elim (df : DF) (fb : Value) (ow : Bool) (strict : StrictMode)
    (func : Func) (r : Option Func) (df2 : DF)
    (hok : rowlogic df fb ow strict func = (Except.ok r, df2)) :
    ∃ vals, mapRows (fun i => applyFuncToRow func (getRow df i) strict fb)
        (List.range (nrows df)) = Except.ok vals
      ∧ r = none ∧ df2 = setCol df func.name vals := by
  simp only [rowlogic] at hok
  by_cases h1 : (func.params.map Prod.fst).filter (fun p => !(colNames df).contains p) = []
  · rw [if_neg (not_not_intro h1)] at hok
    by_cases h2 : ¬ ow = true ∧ (colNames df).contains func.name = true
    · rw [if_pos h2] at hok
      exact Except.noConfusion (congrArg Prod.fst hok)
    · rw [if_neg h2] at hok
      cases hvals : mapRows (fun i => applyFuncToRow func (getRow df i) strict fb)
          (List.range (nrows df)) with
      | error e =>
        rw [hvals] at hok
        exact Except.noConfusion (congrArg Prod.fst hok)
      | ok vals =>
        rw [hvals] at hok
        have hr := congrArg Prod.fst hok
        have hdf := congrArg Prod.snd hok
        simp only at hr hdf
        cases hr
        exact ⟨vals, rfl, rfl, hdf.symm⟩
  · rw [if_pos h1] at hok
    exact Except.noConfusion (congrArg Prod.fst hok)

/-- Inversion for a successful `ctransf` registration. -/
theorem ctransf_ok_elim (df : DF) (ow : Bool) (cfunc : CFunc)
    (r : Option CFunc) (df2 : DF)
    (hok : ctransf df ow cfunc = (Except.ok r, df2)) :
    ∃ vals, cfunc.body (cfunc.params.map (fun c => (c, (List.lookup c df).getD [])))
        = Except.ok vals
      ∧ r = none ∧ df2 = setCol df cfunc.name vals := by
  simp only [ctransf] at hok
  by_cases h1 : cfunc.params.filter (fun p => !(colNames df).contains p) = []
  · rw [if_neg (not_not_intro h1)] at hok
    by_cases h2 : ¬ ow = true ∧ (colNames df).contains cfunc.name = true
    · rw [if_pos h2] at hok
      exact Except.noConfusion (congrArg Prod.fst hok)
    · rw [if_neg h2] at hok
      cases hvals : cfunc.body (cfunc.params.map (fun c => (c, (List.lookup c df).getD []))) with
      | error e =>
        rw [hvals] at hok
        exact Except.noConfusion (congrArg Prod.fst hok)
      | ok vals =>
        rw [hvals] at hok
        have hr := congrArg Prod.fst hok
        have hdf := congrArg Prod.snd hok
        simp only at hr hdf
        cases hr
        exact ⟨vals, rfl, rfl, hdf.symm⟩
  · rw [if_pos h1] at hok
    exact Except.noConfusion (congrArg Prod.fst hok)

/-- C10: both inner decorators have no return statement, so a successful
registration rebinds the decorated function's name to Python `None` — the
function is consumed to produce the column and is not returned for reuse. -/
theorem c10_decorators_return_none (df : DF) (fb : Value) (ow : Bool)
    (strict : StrictMode) (func : Func) (cf : CFunc)
    (r1 : Option Func) (df1 : DF) (r2 : Option CFunc) (df2 : DF)
    (h1 : rowlogic df fb ow strict func = (Except.ok r1, df1))
    (h2 : ctransf df ow cf = (Except.ok r2, df2)) :
    r1 = none ∧ r2 = none := by
  obtain ⟨_, _, hr1, _⟩ := rowlogic_ok_elim df fb ow strict func r1 df1 h1
  obtain ⟨_, _, hr2, _⟩ := ctransf_ok_elim df ow cf r2 df2 h2
  exact ⟨hr1, hr2⟩

/-- A one-column table used by several witnesses. -/
def dfOne : DF := [("a", [Value.vInt 1])]

/-- A row transform `def g(a): return 7` for the C10 witness. -/
def funcSeven : Func := ⟨"g", [("a", ⟨none, none⟩)], fun _ => .ok (.vInt 7)⟩

/-- A column transform `def s(a): return a` for the C10 witness. -/
def cfuncId : CFunc := ⟨"s", ["a"], fun cols => .ok ((List.lookup "a" cols).getD [])⟩

/-- Witness for C10: two concrete successful registrations, whose rebound
value is `None` in both cases. -/
theorem c10_witness :
    rowlogic dfOne Value.pyNone true StrictMode.defaultMode funcSeven
      = (Except.ok none, [("a", [Value.vInt 1]), ("g", [Value.vInt 7])])
    ∧ ctransf dfOne true cfuncId
      = (Except.ok none, [("a", [Value.vInt 1]), ("s", [Value.vInt 1])])
    ∧ ((none : Option Func) = none ∧ (none : Option CFunc) = none) :=
  ⟨rfl, rfl,
    c10_decorators_return_none dfOne Value.pyNone true StrictMode.defaultMode funcSeven cfuncId
      none [("a", [Value.vInt 1]), ("g", [Value.vInt 7])]
      none [("a", [Value.vInt 1]), ("s", [Value.vInt 1])] rfl rfl⟩

/-- C9: Python `None` is the "not configured" sentinel for
`default_if_exception`. When the bound function raises and the fallback is
`None`, the exception propagates; and whenever the fallback is substituted
as a row's result, that fallback cannot be `None`. -/
theorem c9_none_is_not_configured (func : Func) (row : List (String × Value))
    (strict : StrictMode) (args : List (String × Value)) (e : String)
    (hbind : bindParams func strict row = Except.ok args)
    (herr : func.body args = Except.error e) :
    applyFuncToRow func row strict Value.pyNone = Except.error (PgError.funcError e)
    ∧ ∀ fb v, applyFuncToRow func row strict fb = Except.ok v
        → v = fb ∧ fb ≠ Value.pyNone := by
  constructor
  · simp [applyFuncToRow, hbind, herr]
  · intro fb v h
    simp only [applyFuncToRow, hbind, herr] at h
    by_cases hfb : fb = Value.pyNone
    · rw [if_pos hfb] at h
      exact Except.noConfusion h
    · rw [if_neg hfb] at h
      cases h
      exact ⟨rfl, hfb⟩

/-- A row transform whose body always raises, for the C9 witness. -/
def funcBoom : Func := ⟨"h", [("a", ⟨none, none⟩)], fun _ => .error "boom"⟩

/-- Witness for C9: a raising function with the default `None` fallback
propagates its exception out of the row binder. -/
theorem c9_witness :
    bindParams funcBoom StrictMode.defaultMode [("a", Value.vInt 1)]
      = Except.ok [("a", Value.vInt 1)]
    ∧ funcBoom.body [("a", Value.vInt 1)] = Except.error "boom"
    ∧ applyFuncToRow funcBoom [("a", Value.vInt 1)] StrictMode.defaultMode Value.pyNone
      = Except.error (PgError.funcError "boom") :=
  ⟨rfl, rfl,
    (c9_none_is_not_configured funcBoom [("a", Value.vInt 1)] StrictMode.defaultMode
      [("a", Value.vInt 1)] "boom" rfl rfl).1⟩

/-- The spec's example table: `a=[0,5]`, `b=["1","x"]`. -/
def dfExample : DF :=
  [("a", [Value.vInt 0, Value.vInt 5]), ("b", [Value.vStr "1", Value.vStr "x"])]

/-- The spec's example transform `def r(a: int, b: int = 9): return a + b`. -/
def rFunc : Func :=
  ⟨"r", [("a", ⟨some .tInt, none⟩), ("b", ⟨some .tInt, some (.vInt 9)⟩)],
    fun args =>
      match List.lookup "a" args, List.lookup "b" args with
      | some (Value.vInt x), some (Value.vInt y) => .ok (.vInt (x + y))
      | _, _ => .error "unsupported operand type(s) for +"⟩

/-- C4 counterexample: on the spec's example the produced column is
`r = [1, 14]`, not `[9, 14]` — in row 0 the value `"1"` converts to the
int `1` successfully, so the default `9` is not used and `0 + 1 = 1`. -/
theorem c4_counterexample :
    (rowlogic dfExample Value.pyNone true StrictMode.defaultMode rFunc).2
      = [("a", [Value.vInt 0, Value.vInt 5]), ("b", [Value.vStr "1", Value.vStr "x"]),
         ("r", [Value.vInt 1, Value.vInt 14])]
    ∧ [Value.vInt 1, Value.vInt 14] ≠ [Value.vInt 9, Value.vInt 14] :=
  ⟨rfl, by decide⟩

/-- C4 (amended): registering the example transform with
`strict_typecast="default"` succeeds and produces the column `r = [1, 14]`:
row 0 has `b = "1"`, which int conversion accepts, giving `0 + 1 = 1`;
row 1 has `b = "x"`, which fails conversion, so the default `9` is used,
giving `5 + 9 = 14`. -/
theorem c4_amended_scenario :
    rowlogic dfExample Value.pyNone true StrictMode.defaultMode rFunc
      = (Except.ok none,
         [("a", [Value.vInt 0, Value.vInt 5]), ("b", [Value.vStr "1", Value.vStr "x"]),
          ("r", [Value.vInt 1, Value.vInt 14])]) :=
  rfl

/-- A transform named after the existing column `a` but with a parameter
`z` that is not a column: used to show the missing-columns check fires
before the overwrite-conflict check. -/
def funcBadParam : Func := ⟨"a", [("z", ⟨none, none⟩)], fun _ => .ok (.vInt 0)⟩

/-- C6 counterexample: with `overwrite_col=False` and a function whose name
is an existing column but whose parameter `z` is not a column, registration
fails with the missing-columns `KeyError`, not the column-conflict
`ValueError`. -/
theorem c6_counterexample :
    rowlogic dfOne Value.pyNone false StrictMode.defaultMode funcBadParam
      = (Except.error (PgError.keyErrorMissingCols ["z"] ["a"]), dfOne)
    ∧ PgError.keyErrorMissingCols ["z"] ["a"] ≠ PgError.valueErrorConflict "a" :=
  ⟨rfl, by decide⟩

/-- C6 (amended): for a registration with `overwrite_col=False` whose
parameter names are all existing columns and whose function name names an
existing column, both decorators fail with the column-conflict `ValueError`
before any row is processed and return the table unchanged. (When some
parameter is not a column, the missing-columns `KeyError` takes
precedence.) -/
theorem c6_conflict_checked_before_rows (df : DF) (fb : Value) (strict : StrictMode)
    (func : Func) (cf : CFunc)
    (hp : ∀ p ∈ func.params, (colNames df).contains p.1 = true)
    (hn : (colNames df).contains func.name = true)
    (hcp : ∀ p ∈ cf.params, (colNames df).contains p = true)
    (hcn : (colNames df).contains cf.name = true) :
    rowlogic df fb false strict func = (Except.error (PgError.valueErrorConflict func.name), df)
    ∧ ctransf df false cf = (Except.error (PgError.valueErrorConflict cf.name), df) := by
  have hm1 : (func.params.map Prod.fst).filter (fun p => !(colNames df).contains p) = [] := by
    apply List.filter_eq_nil_iff.mpr
    intro a ha
    rcases List.mem_map.mp ha with ⟨p, hpmem, rfl⟩
    simpa using hp p hpmem
  have hm2 : cf.params.filter (fun p => !(colNames df).contains p) = [] := by
    apply List.filter_eq_nil_iff.mpr
    intro a ha
    simpa using hcp a ha
  constructor
  · simp only [rowlogic, hm1]
    rw [if_neg (not_not_intro rfl), if_pos ⟨Bool.false_ne_true, hn⟩]
  · simp only [ctransf, hm2]
    rw [if_neg (not_not_intro rfl), if_pos ⟨Bool.false_ne_true, hcn⟩]

/-- A row transform named after the existing column `a`, with `a` as its
only parameter, for the C6 witness. -/
def funcShadowA : Func := ⟨"a", [("a", ⟨none, none⟩)], fun _ => .ok (.vInt 0)⟩

/-- A column transform named after the existing column `a` for the C6
witness. -/
def cfuncShadowA : CFunc := ⟨"a", ["a"], fun _ => .ok []⟩

/-- Witness for C6 (amended): concrete conflicting registrations fail with
the column-conflict error and leave the table untouched. -/
theorem c6_witness :
    (colNames dfOne).contains "a" = true
    ∧ rowlogic dfOne Value.pyNone false StrictMode.defaultMode funcShadowA
      = (Except.error (PgError.valueErrorConflict "a"), dfOne)
    ∧ ctransf dfOne false cfuncShadowA
      = (Except.error (PgError.valueErrorConflict "a"), dfOne) :=
  ⟨by decide,
    (c6_conflict_checked_before_rows dfOne Value.pyNone StrictMode.defaultMode
      funcShadowA cfuncShadowA (by decide) (by decide) (by decide) (by decide)).1,
    (c6_conflict_checked_before_rows dfOne Value.pyNone StrictMode.defaultMode
      funcShadowA cfuncShadowA (by decide) (by decide) (by decide) (by decide)).2⟩

/-- C5: a successful row-transform registration keeps the number of rows,
keeps every other column's values, and keeps the column order: the original
columns followed by the one new column, or unchanged when overwriting. -/
theorem c5_table_shape_preserved (df : DF) (fb : Value) (ow : Bool) (strict : StrictMode)
    (func : Func) (r : Option Func) (df2 : DF)
    (hok : rowlogic df fb ow strict func = (Except.ok r, df2)) :
    nrows df2 = nrows df
    ∧ (∀ c, c ≠ func.name → List.lookup c df2 = List.lookup c df)
    ∧ colNames df2 = (if (colNames df).contains func.name then colNames df
        else colNames df ++ [func.name]) := by
  obtain ⟨vals, hvals, _, hdf2⟩ := rowlogic_ok_elim df fb ow strict func r df2 hok
  have hlen : vals.length = nrows df := by
    have h := mapRows_ok_length _ _ _ hvals
    simpa using h
  subst hdf2
  exact ⟨setCol_nrows df func.name vals hlen,
    fun c hc => setCol_lookup_ne df func.name vals c hc,
    setCol_colNames df func.name vals⟩

/-- Witness for C5: a concrete registration adds the single column `g` and
changes nothing else. -/
theorem c5_witness :
    rowlogic dfOne Value.pyNone true StrictMode.defaultMode funcSeven
      = (Except.ok none, [("a", [Value.vInt 1]), ("g", [Value.vInt 7])])
    ∧ (nrows [("a", [Value.vInt 1]), ("g", [Value.vInt 7])] = nrows dfOne
      ∧ (∀ c, c ≠ funcSeven.name →
          List.lookup c [("a", [Value.vInt 1]), ("g", [Value.vInt 7])] = List.lookup c dfOne)
      ∧ colNames [("a", [Value.vInt 1]), ("g", [Value.vInt 7])]
        = (if (colNames dfOne).contains funcSeven.name then colNames dfOne
            else colNames dfOne ++ [funcSeven.name])) :=
  ⟨rfl,
    c5_table_shape_preserved dfOne Value.pyNone true StrictMode.defaultMode funcSeven
      none [("a", [Value.vInt 1]), ("g", [Value.vInt 7])] rfl⟩

/-- The value a row contributes to the output column when a fallback is
configured: the function's normal return, or the fallback when it raised. -/
def rowOutcome (func : Func) (strict : StrictMode) (fb : Value)
    (row : List (String × Value)) : Value :=
  match bindParams func strict row with
  | .ok args =>
    match func.body args with
    | .ok v => v
    | .error _ => fb
  | .error _ => fb

/-- C3: with a configured (non-`None`) exception fallback, a row-transform
registration that passes validation and binds every row succeeds: no
exception escapes, every row is processed, and the output column holds the
fallback exactly at the rows where the function raised and the function's
return value everywhere else. -/
theorem c3_fallback_containment (df : DF) (fb : Value) (ow : Bool) (strict : StrictMode)
    (func : Func)
    (hfb : fb ≠ Value.pyNone)
    (hparams : ∀ p ∈ func.params, (colNames df).contains p.1 = true)
    (how : ow = true ∨ (colNames df).contains func.name = false)
    (hbind : ∀ i, i < nrows df →
      ∃ args, bindParams func strict (getRow df i) = Except.ok args) :
    ∃ vals,
      rowlogic df fb ow strict func = (Except.ok none, setCol df func.name vals)
      ∧ vals.length = nrows df
      ∧ ∀ i args, i < nrows df → bindParams func strict (getRow df i) = Except.ok args →
          vals.get? i = some (match func.body args with
            | Except.ok v => v
            | Except.error _ => fb) := by
  have hrow : ∀ i ∈ List.range (nrows df),
      applyFuncToRow func (getRow df i) strict fb
        = Except.ok (rowOutcome func strict fb (getRow df i)) := by
    intro i hi
    obtain ⟨args, hargs⟩ := hbind i (List.mem_range.mp hi)
    simp only [applyFuncToRow, rowOutcome, hargs]
    cases hb : func.body args with
    | ok v => rfl
    | error e =>
      show (if fb = Value.pyNone then Except.error (PgError.funcError e) else Except.ok fb)
        = Except.ok fb
      exact if_neg hfb
  have hmap := mapRows_ok_of (fun i => applyFuncToRow func (getRow df i) strict fb)
      (fun i => rowOutcome func strict fb (getRow df i)) (List.range (nrows df)) hrow
  have hm1 : (func.params.map Prod.fst).filter (fun p => !(colNames df).contains p) = [] := by
    apply List.filter_eq_nil_iff.mpr
    intro a ha
    rcases List.mem_map.mp ha with ⟨p, hpmem, rfl⟩
    simpa using hparams p hpmem
  have hcond : ¬(¬ ow = true ∧ (colNames df).contains func.name = true) := by
    rcases how with h | h
    · intro hco
      exact hco.1 h
    · intro hco
      rw [h] at hco
      exact Bool.false_ne_true hco.2
  refine ⟨(List.range (nrows df)).map (fun i => rowOutcome func strict fb (getRow df i)),
      ?_, by simp, ?_⟩
  · simp only [rowlogic, hm1]
    rw [if_neg (not_not_intro rfl), if_neg hcond, hmap]
  · intro i args hi hargs
    rw [List.get?_eq_getElem?, List.getElem?_map, List.getElem?_range hi]
    simp only [Option.map_some']
    simp only [rowOutcome, hargs]

/-- The table `a=[0,5]` for the C3 witness. -/
def dfTwo : DF := [("a", [Value.vInt 0, Value.vInt 5])]

/-- A transform that raises exactly where `a == 0` for the C3 witness. -/
def funcRaisesOnZero : Func :=
  ⟨"f", [("a", ⟨some .tInt, none⟩)],
    fun args =>
      match List.lookup "a" args with
      | some (Value.vInt n) => if n = 0 then .error "a == 0" else .ok (Value.vInt n)
      | _ => .error "missing a"⟩

/-- Witness for C3: the function raises only at row 0, the fallback NaN
lands exactly there, and row 1 keeps the function's return. -/
theorem c3_witness :
    Value.nan ≠ Value.pyNone
    ∧ ∃ vals,
      rowlogic dfTwo Value.nan true StrictMode.defaultMode funcRaisesOnZero
        = (Except.ok none, setCol dfTwo funcRaisesOnZero.name vals)
      ∧ vals.length = nrows dfTwo
      ∧ ∀ i args, i < nrows dfTwo →
          bindParams funcRaisesOnZero StrictMode.defaultMode (getRow dfTwo i)
            = Except.ok args →
          vals.get? i = some (match funcRaisesOnZero.body args with
            | Except.ok v => v
            | Except.error _ => Value.nan) :=
  ⟨by decide,
    c3_fallback_containment dfTwo Value.nan true StrictMode.defaultMode funcRaisesOnZero
      (by decide) (by decide) (Or.inl rfl)
      (by
        intro i hi
        have h2 : i < 2 := hi
        interval_cases i
        · exact ⟨[("a", Value.vInt 0)], rfl⟩
        · exact ⟨[("a", Value.vInt 5)], rfl⟩)⟩

/-- The character class `[0-9a-zA-Z_]` kept by `_normalize_column_name`. -/
def isWordChar (c : Char) : Bool :=
  c.isDigit || c.isAlpha || c = '_'

/-- `_normalize_column_name(s)` from `transforms.py`: strip, replace each
whitespace character with an underscore, remove the remaining
non-identifier characters, put an underscore before a leading digit, then
strip again and lowercase. -/
def normalizeColumnName (s : String) : String :=
  let s1 := (pyStripChars s.data).map (fun c => if c.isWhitespace then '_' else c)
  let s2 := s1.filter isWordChar
  let s3 := match s2 with
    | c :: rest => if c.isDigit then '_' :: c :: rest else c :: rest
    | [] => []
  String.mk ((pyStripChars s3).map Char.toLower)

/-- The running duplicate counts of `norm_colnames` (`seen[col]` of the
`defaultdict(int)`). -/
def lookupCount (seen : List (String × Nat)) (c : String) : Nat :=
  (List.lookup c seen).getD 0

/-- The dedup loop of `norm_colnames`: the k-th repetition of an
already-seen name gets the suffix `_k`. -/
def dedupNames : List String → List (String × Nat) → List String
  | [], _ => []
  | c :: rest, seen =>
    let k := lookupCount seen c
    (if k = 0 then c else c ++ "_" ++ toString k) :: dedupNames rest ((c, k + 1) :: seen)

/-- `norm_colnames` on the level of the column-name list: normalize every
name, then suffix duplicates in first-seen order. -/
def normColNamesList (names : List String) : List String :=
  dedupNames (names.map normalizeColumnName) []

/-- `norm_colnames(df)`: rename the columns in place, positionally. -/
def norm_colnames (df : DF) : DF :=
  (normColNamesList (colNames df)).zip (df.map Prod.snd)

/-- Number of occurrences of a name in a list of names. -/
def countOcc (c : String) : List String → Nat
  | [] => 0
  | x :: xs => (if x = c then 1 else 0) + countOcc c xs

/-- The spec-side description of duplicate suffixing: each name gets `_k`
where `k` is the number of earlier occurrences of the same name, the first
occurrence keeping the unsuffixed name. -/
def suffixBySeen (pfx : List String) : List String → List String
  | [] => []
  | c :: rest =>
    let k := countOcc c pfx
    (if k = 0 then c else c ++ "_" ++ toString k) :: suffixBySeen (pfx ++ [c]) rest

/-- Occurrence counts extend across a snoc. -/
theorem countOcc_append (c : String) (l : List String) (x : String) :
    countOcc c (l ++ [x]) = countOcc c l + (if x = c then 1 else 0) := by
  induction l with
  | nil => simp [countOcc]
  | cons y ys ih => simp [countOcc, ih, Nat.add_assoc]

/-- The stateful dedup loop computes the spec-side suffixing: the running
`seen` counts agree with the occurrence counts of the processed prefix. -/
theorem dedupNames_eq_suffixBySeen :
    ∀ (ns : List String) (seen : List (String × Nat)) (pfx : List String),
      (∀ c, lookupCount seen c = countOcc c pfx) →
      dedupNames ns seen = suffixBySeen pfx ns := by
  intro ns
  induction ns with
  | nil => intro seen pfx h; rfl
  | cons c rest ih =>
    intro seen pfx h
    simp only [dedupNames, suffixBySeen]
    rw [h c]
    congr 1
    apply ih
    intro c2
    by_cases hc : c2 = c
    · subst hc
      simp [lookupCount, List.lookup, countOcc_append]
    · have hb : (c2 == c) = false := beq_eq_false_iff_ne.mpr hc
      simp only [lookupCount, List.lookup, hb]
      rw [countOcc_append, if_neg (fun hx => hc hx.symm)]
      have h2 := h c2
      simp only [lookupCount] at h2
      simp [h2]

/-- C7 counterexample: whitespace is not collapsed — each whitespace
character becomes its own underscore, so `"a  b"` normalizes to `"a__b"`,
not `"a_b"`. -/
theorem c7_counterexample :
    normalizeColumnName "a  b" = "a__b" ∧ "a__b" ≠ "a_b" :=
  ⟨rfl, by decide⟩

/-- C7 (amended): normalization lowercases, replaces each whitespace
character with an underscore (runs of n whitespace characters become n
underscores), removes the other non-identifier characters and guards a
leading digit, mapping `"  0123 aBc "` to `"_0123_abc"`; and the dedup pass
gives the k-th repetition of a normalized name the suffix `_k`, in
first-seen order, the first occurrence keeping the unsuffixed name. -/
theorem c7_normalize_and_dedup :
    normalizeColumnName "  0123 aBc " = "_0123_abc"
    ∧ ∀ names : List String,
        normColNamesList names = suffixBySeen [] (names.map normalizeColumnName) := by
  constructor
  · rfl
  · intro names
    apply dedupNames_eq_suffixBySeen
    intro c
    rfl

/-- Executable lexicographic comparison of strings (Python's `str` order),
by their character lists. -/
def strLtB (a b : String) : Bool :=
  decide (a.data < b.data)

/-- The executable comparison agrees with the string order. -/
theorem strLtB_iff (a b : String) : strLtB a b = true ↔ a < b := by
  rw [strLtB, decide_eq_true_eq]
  exact Iff.symm String.lt_iff_toList_lt

/-- Insertion into a sorted duplicate-free list: the sorted-set built by
`_agg_str_list` (`sorted(set(...))`). -/
def insSorted (x : String) : List String → List String
  | [] => [x]
  | y :: ys =>
    if x = y then y :: ys
    else if strLtB x y then x :: y :: ys
    else y :: insSorted x ys

/-- Membership in a sorted-set insertion. -/
theorem mem_insSorted (x z : String) :
    ∀ l, z ∈ insSorted x l ↔ z = x ∨ z ∈ l
  | [] => by simp [insSorted]
  | y :: ys => by
    simp only [insSorted]
    by_cases h1 : x = y
    · rw [if_pos h1]
      subst h1
      simp [List.mem_cons]
    · rw [if_neg h1]
      by_cases h2 : strLtB x y = true
      · rw [if_pos h2]
        simp [List.mem_cons]
      · rw [if_neg h2]
        simp only [List.mem_cons, mem_insSorted x z ys]
        tauto

/-- Sorted-set insertion keeps the list strictly increasing. -/
theorem pairwise_insSorted (x : String) :
    ∀ l, l.Pairwise (· < ·) → (insSorted x l).Pairwise (· < ·)
  | [], _ => by simp [insSorted]
  | y :: ys, hp => by
    simp only [insSorted]
    rcases List.pairwise_cons.mp hp with ⟨hy, hys⟩
    by_cases h1 : x = y
    · rw [if_pos h1]
      exact hp
    · rw [if_neg h1]
      by_cases h2 : strLtB x y = true
      · rw [if_pos h2]
        have hxy : x < y := (strLtB_iff x y).mp h2
        refine List.pairwise_cons.mpr ⟨?_, hp⟩
        intro z hz
        rcases List.mem_cons.mp hz with rfl | hz2
        · exact hxy
        · exact lt_trans hxy (hy z hz2)
      · rw [if_neg h2]
        refine List.pairwise_cons.mpr ⟨?_, pairwise_insSorted x ys hys⟩
        intro z hz
        rcases (mem_insSorted x z ys).mp hz with rfl | hz2
        · rcases lt_trichotomy z y with h | h | h
          · exact absurd ((strLtB_iff z y).mpr h) h2
          · exact absurd h h1
          · exact h
        · exact hy z hz2

/-- `_agg_str_list(a)`: the sorted set of all strings in all the lists. -/
def aggStrList (a : List (List String)) : List String :=
  a.foldl (fun acc l => l.foldl (fun acc2 s => insSorted s acc2) acc) []

/-- Membership after inserting one whole list. -/
theorem mem_foldl_ins (z : String) :
    ∀ (l acc : List String),
      z ∈ l.foldl (fun a s => insSorted s a) acc ↔ z ∈ acc ∨ z ∈ l
  | [], acc => by simp
  | s :: t, acc => by
    simp only [List.foldl_cons]
    rw [mem_foldl_ins z t (insSorted s acc), mem_insSorted]
    simp only [List.mem_cons]
    tauto

/-- Inserting one whole list keeps the accumulator strictly increasing. -/
theorem pairwise_foldl_ins :
    ∀ (l acc : List String), acc.Pairwise (· < ·) →
      (l.foldl (fun a s => insSorted s a) acc).Pairwise (· < ·)
  | [], _, h => h
  | s :: t, acc, h => pairwise_foldl_ins t (insSorted s acc) (pairwise_insSorted s acc h)

/-- Membership in the two-level aggregation fold. -/
theorem mem_aggFold (z : String) :
    ∀ (a : List (List String)) (acc : List String),
      z ∈ a.foldl (fun acc l => l.foldl (fun a2 s => insSorted s a2) acc) acc
        ↔ z ∈ acc ∨ ∃ l ∈ a, z ∈ l
  | [], acc => by simp
  | l :: rest, acc => by
    simp only [List.foldl_cons]
    rw [mem_aggFold z rest (l.foldl (fun a2 s => insSorted s a2) acc), mem_foldl_ins]
    simp only [List.mem_cons]
    constructor
    · rintro ((h | h) | ⟨w, hw, hz⟩)
      · exact Or.inl h
      · exact Or.inr ⟨l, Or.inl rfl, h⟩
      · exact Or.inr ⟨w, Or.inr hw, hz⟩
    · rintro (h | ⟨w, (rfl | hw), hz⟩)
      · exact Or.inl (Or.inl h)
      · exact Or.inl (Or.inr hz)
      · exact Or.inr ⟨w, hw, hz⟩

/-- The two-level aggregation fold keeps strict sortedness. -/
theorem pairwise_aggFold :
    ∀ (a : List (List String)) (acc : List String), acc.Pairwise (· < ·) →
      (a.foldl (fun acc l => l.foldl (fun a2 s => insSorted s a2) acc) acc).Pairwise (· < ·)
  | [], _, h => h
  | l :: rest, acc, h => pairwise_aggFold rest _ (pairwise_foldl_ins l acc h)

/-- `_agg_str_list` contains exactly the strings of its input lists. -/
theorem mem_aggStrList (z : String) (a : List (List String)) :
    z ∈ aggStrList a ↔ ∃ l ∈ a, z ∈ l := by
  unfold aggStrList
  rw [mem_aggFold]
  simp

/-- `_agg_str_list` is strictly sorted (sorted and duplicate-free). -/
theorem pairwise_aggStrList (a : List (List String)) :
    (aggStrList a).Pairwise (· < ·) :=
  pairwise_aggFold a [] (by simp)

/-- The values `pd.concat` takes from one input table for a given column:
its own values when the column exists, otherwise a NaN column of its
length. -/
def paddedCol (df : DF) (c : String) : List Value :=
  (List.lookup c df).getD (List.replicate (nrows df) Value.nan)

/-- The column order of `pd.concat(axis=0, sort=False)`: order of first
appearance across the input tables. -/
def appearanceCols (dfs : List DF) : List String :=
  dfs.foldl (fun acc d => acc ++ (colNames d).filter (fun c => !acc.contains c)) []

/-- `pd.concat` of named tables along the row axis: appearance-ordered
columns, each the concatenation of the tables' (NaN-padded) columns. -/
def concatDFs (dfs : List DF) : DF :=
  (appearanceCols dfs).map (fun c => (c, (dfs.map (fun d => paddedCol d c)).flatten))

/-- `table[cols]`: select the columns in the given order, raising a
`KeyError` listing the missing names when any is absent. -/
def selectCols (tbl : DF) (cols : List String) : Except PgError DF :=
  let missing := cols.filter (fun c => !(colNames tbl).contains c)
  if missing ≠ [] then .error (.keyErrorSelect missing)
  else .ok (cols.map (fun c => (c, (List.lookup c tbl).getD [])))

/-- A grouper query: `None`, a single key, or a list of keys. -/
inductive Query where
  | noneQ
  | key (s : String)
  | keys (l : List String)

/-- `_aggvals` specialized to the column groups (`agg = _agg_str_list`):
`None` aggregates every registered group, a single key returns its entry
verbatim, a key list aggregates the named groups, and missing keys raise
`KeyError`. -/
def aggvalsCols (data : List (String × List String)) (q : Query) :
    Except PgError (List String) :=
  match q with
  | .noneQ => .ok (aggStrList (data.map Prod.snd))
  | .key s =>
    match List.lookup s data with
    | some v => .ok v
    | none => .error (.keyErrorGrouper [s])
  | .keys l =>
    if l.all (fun k => (List.lookup k data).isSome) then
      .ok (aggStrList (l.filterMap (fun k => List.lookup k data)))
    else .error (.keyErrorGrouper (l.filter (fun k => (List.lookup k data).isNone)))

/-- `_aggvals` specialized to the named tables (`agg = pd.concat`). -/
def aggvalsDfs (data : List (String × DF)) (q : Query) : Except PgError DF :=
  match q with
  | .noneQ => .ok (concatDFs (data.map Prod.snd))
  | .key s =>
    match List.lookup s data with
    | some v => .ok v
    | none => .error (.keyErrorGrouper [s])
  | .keys l =>
    if l.all (fun k => (List.lookup k data).isSome) then
      .ok (concatDFs (l.filterMap (fun k => List.lookup k data)))
    else .error (.keyErrorGrouper (l.filter (fun k => (List.lookup k data).isNone)))

/-- The `Grouper`: named column groups and named tables, both in
registration (insertion) order. -/
structure Grouper where
  column_groups : List (String × List String)
  dataframes : List (String × DF)

/-- `Grouper.sel(cg, df)`: resolve the selected columns and the selected
tables through `_aggvals`, then return `sel_dfs[sel_cols]`. -/
def Grouper.sel (g : Grouper) (cg : Query) (dfq : Query) : Except PgError DF := do
  let sel_cols ← aggvalsCols g.column_groups cg
  let sel_dfs ← aggvalsDfs g.dataframes dfq
  selectCols sel_dfs sel_cols

/-- Looking up a key of a keyed `map` returns its image. -/
theorem lookup_map_self (f : String → List Value) (c : String) :
    ∀ l : List String, c ∈ l →
      List.lookup c (l.map (fun x => (x, f x))) = some (f c)
  | [], h => absurd h (List.not_mem_nil c)
  | x :: t, h => by
    by_cases hc : c = x
    · subst hc
      simp [List.lookup]
    · have hb : (c == x) = false := beq_eq_false_iff_ne.mpr hc
      simp only [List.map_cons, List.lookup, hb]
      exact lookup_map_self f c t (by
        rcases List.mem_cons.mp h with h1 | h1
        · exact absurd h1 hc
        · exact h1)

/-- The concatenated table's columns are the appearance-ordered union. -/
theorem colNames_concatDFs (dfs : List DF) :
    colNames (concatDFs dfs) = appearanceCols dfs := by
  unfold concatDFs colNames
  rw [List.map_map]
  have h : ∀ c ∈ appearanceCols dfs,
      (Prod.fst ∘ fun c => (c, (dfs.map (fun d => paddedCol d c)).flatten)) c = id c :=
    fun c _ => rfl
  rw [List.map_congr_left h, List.map_id]

/-- A successful lookup returns a value stored in the table. -/
theorem lookup_mem_values :
    ∀ (df : DF) (c : String) (vs : List Value),
      List.lookup c df = some vs → ∃ k, (k, vs) ∈ df
  | [], c, vs, h => by simp [List.lookup] at h
  | p :: t, c, vs, h => by
    cases hb : c == p.1 with
    | false =>
      simp only [List.lookup, hb] at h
      obtain ⟨k, hk⟩ := lookup_mem_values t c vs h
      exact ⟨k, List.mem_cons_of_mem p hk⟩
    | true =>
      simp only [List.lookup, hb] at h
      cases h
      exact ⟨p.1, by simp⟩

/-- In a well-formed table every padded column has one value per row. -/
theorem paddedCol_length (df : DF) (c : String) (hwf : dfwf df = true) :
    (paddedCol df c).length = nrows df := by
  unfold paddedCol
  cases hl : List.lookup c df with
  | none => simp
  | some vs =>
    simp only [Option.getD_some]
    obtain ⟨k, hk⟩ := lookup_mem_values df c vs hl
    have h := List.all_eq_true.mp hwf _ hk
    simpa using h

/-- Inversion for a successful column selection. -/
theorem selectCols_ok_elim (tbl : DF) (cols : List String) (out : DF)
    (h : selectCols tbl cols = .ok out) :
    (∀ c ∈ cols, c ∈ colNames tbl)
    ∧ out = cols.map (fun c => (c, (List.lookup c tbl).getD [])) := by
  simp only [selectCols] at h
  by_cases hm : cols.filter (fun c => !(colNames tbl).contains c) = []
  · rw [if_neg (not_not_intro hm)] at h
    cases h
    refine ⟨?_, rfl⟩
    intro c hc
    by_contra hnc
    have hmem : c ∈ cols.filter (fun c => !(colNames tbl).contains c) := by
      apply List.mem_filter.mpr
      refine ⟨hc, ?_⟩
      simp [hnc]
    rw [hm] at hmem
    exact List.not_mem_nil c hmem
  · rw [if_pos hm] at h
    cases h

/-- The column names of a keyed `map` are its keys. -/
theorem colNames_map_keyed (l : List String) (f : String → List Value) :
    colNames (l.map (fun c => (c, f c))) = l := by
  unfold colNames
  rw [List.map_map]
  have h : ∀ c ∈ l, (Prod.fst ∘ fun c => (c, f c)) c = id c := fun c _ => rfl
  rw [List.map_congr_left h, List.map_id]

/-- C8: selecting with `cg=None, df=None` returns the table whose columns
are the sorted (strictly increasing, duplicate-free) union of the column
names of all registered groups and whose rows are the concatenation of all
named tables in registration order: every selected column is the
concatenation of the tables' (NaN-padded) values for it, and the row count
is the sum of the tables' row counts. -/
theorem c8_grouper_roundtrip (g : Grouper) (out : DF)
    (hwf : ∀ p ∈ g.dataframes, dfwf p.2 = true)
    (hok : Grouper.sel g .noneQ .noneQ = .ok out) :
    (colNames out).Pairwise (· < ·)
    ∧ (∀ c, c ∈ colNames out ↔ ∃ p ∈ g.column_groups, c ∈ p.2)
    ∧ (∀ c, c ∈ colNames out →
        List.lookup c out
          = some ((g.dataframes.map (fun p => paddedCol p.2 c)).flatten))
    ∧ (colNames out ≠ [] →
        nrows out = (g.dataframes.map (fun p => nrows p.2)).sum) := by
  have hok2 : selectCols (concatDFs (g.dataframes.map Prod.snd))
      (aggStrList (g.column_groups.map Prod.snd)) = .ok out := hok
  obtain ⟨hsub, hout⟩ := selectCols_ok_elim _ _ _ hok2
  have hcols : colNames out = aggStrList (g.column_groups.map Prod.snd) := by
    rw [hout]
    exact colNames_map_keyed _ _
  have hlookup : ∀ c, c ∈ colNames out →
      List.lookup c out = some ((g.dataframes.map (fun p => paddedCol p.2 c)).flatten) := by
    intro c hc
    rw [hcols] at hc
    have hctbl : c ∈ colNames (concatDFs (g.dataframes.map Prod.snd)) := hsub c hc
    rw [colNames_concatDFs] at hctbl
    have hl1 : List.lookup c out
        = some ((List.lookup c (concatDFs (g.dataframes.map Prod.snd))).getD []) := by
      rw [hout]
      exact lookup_map_self _ c _ hc
    have hl2 : List.lookup c (concatDFs (g.dataframes.map Prod.snd))
        = some (((g.dataframes.map Prod.snd).map (fun d => paddedCol d c)).flatten) := by
      unfold concatDFs
      exact lookup_map_self _ c _ hctbl
    rw [hl1, hl2]
    simp only [Option.getD_some, List.map_map]
    rfl
  refine ⟨?_, ?_, hlookup, ?_⟩
  · rw [hcols]
    exact pairwise_aggStrList _
  · intro c
    rw [hcols, mem_aggStrList]
    constructor
    · rintro ⟨l, hl, hcl⟩
      rcases List.mem_map.mp hl with ⟨p, hp, rfl⟩
      exact ⟨p, hp, hcl⟩
    · rintro ⟨p, hp, hcp⟩
      exact ⟨p.2, List.mem_map.mpr ⟨p, hp, rfl⟩, hcp⟩
  · intro hne
    cases hco : colNames out with
    | nil => exact absurd hco hne
    | cons c0 cs =>
      have hagg : aggStrList (g.column_groups.map Prod.snd) = c0 :: cs :=
        hcols.symm.trans hco
      have hc0 : c0 ∈ colNames out := by
        rw [hco]
        exact List.mem_cons_self c0 cs
      have hl := hlookup c0 hc0
      have hout2 : out
          = (c0, (List.lookup c0 (concatDFs (g.dataframes.map Prod.snd))).getD [])
            :: cs.map (fun c =>
                (c, (List.lookup c (concatDFs (g.dataframes.map Prod.snd))).getD [])) := by
        rw [hout, hagg, List.map_cons]
      have hl0 : List.lookup c0 out
          = some ((List.lookup c0 (concatDFs (g.dataframes.map Prod.snd))).getD []) := by
        rw [hout2]
        simp [List.lookup]
      have hfc0 : (List.lookup c0 (concatDFs (g.dataframes.map Prod.snd))).getD []
          = (g.dataframes.map (fun p => paddedCol p.2 c0)).flatten :=
        Option.some.inj (hl0.symm.trans hl)
      have hnr : nrows out
          = ((g.dataframes.map (fun p => paddedCol p.2 c0)).flatten).length := by
        rw [hout2, hfc0]
        rfl
      rw [hnr, List.length_flatten, List.map_map]
      congr 1
      apply List.map_congr_left
      intro p hp
      exact paddedCol_length p.2 c0 (hwf p hp)

/-- A concrete grouper with two groups and two one-row tables, for the C8
witness. -/
def grouperEx : Grouper :=
  ⟨[("g1", ["b", "a"]), ("g2", ["a", "c"])],
   [("t1", [("a", [Value.vInt 1]), ("b", [Value.vInt 2]), ("c", [Value.vInt 3])]),
    ("t2", [("a", [Value.vInt 4]), ("b", [Value.vInt 5]), ("c", [Value.vInt 6])])]⟩

/-- The expected selection for the C8 witness. -/
def grouperOut : DF :=
  [("a", [Value.vInt 1, Value.vInt 4]), ("b", [Value.vInt 2, Value.vInt 5]),
   ("c", [Value.vInt 3, Value.vInt 6])]

/-- Witness for C8: a full `sel(None, None)` round trip on concrete data. -/
theorem c8_witness :
    (∀ p ∈ grouperEx.dataframes, dfwf p.2 = true)
    ∧ Grouper.sel grouperEx Query.noneQ Query.noneQ = Except.ok grouperOut
    ∧ ((colNames grouperOut).Pairwise (· < ·)
      ∧ (∀ c, c ∈ colNames grouperOut ↔ ∃ p ∈ grouperEx.column_groups, c ∈ p.2)
      ∧ (∀ c, c ∈ colNames grouperOut →
          List.lookup c grouperOut
            = some ((grouperEx.dataframes.map (fun p => paddedCol p.2 c)).flatten))
      ∧ (colNames grouperOut ≠ [] →
          nrows grouperOut = (grouperEx.dataframes.map (fun p => nrows p.2)).sum)) :=
  ⟨by decide, by decide,
    c8_grouper_roundtrip grouperEx grouperOut (by decide) (by decide)⟩
